import Mathlib

/-!
Verification development for the SJ Piano Academy payment-tracking MCP server
(`mcp_server.py`, `receipt_generator.py`).

The Python tools are shallowly embedded as pure Lean functions:

* MongoDB collections become Lean lists (`List Student`, `List Invoice`);
  `find_one` becomes `List.find?`, `insert_one` appends to the list.
* `datetime` values (always UTC in the source) become the `DT` structure of
  calendar fields; comparison of `datetime`s is the lexicographic order on the
  fields, which agrees with chronological order on valid datetimes.
* Case-insensitive anchored Mongo regexes (`^...$` with option `i`, applied to
  `re.escape`d literals) become case-insensitive whole-string equality.
* The regexes in `_parse_parent_name`, `_parse_amount` and `_extract_reply_to`
  are embedded as explicit backtracking matchers whose candidate order mirrors
  Python `re` semantics (leftmost search position, greedy `+`, lazy `+?`).
* Fallible external collaborators (MongoDB, Gmail, SMTP) enter as `Except`
  parameters; the `try/except` wrappers of the tools become `match`es on them.
* `float` amounts become `ℚ`; `int(amount)` becomes truncation toward zero.
-/

/-! ### Character and string helpers -/

/-- Python `\s` character class (ASCII range): space, tab, newline, carriage
return, vertical tab, form feed. -/
def isPySpace (c : Char) : Bool :=
  c == ' ' || c == '\t' || c == '\n' || c == '\r' || c == '\x0b' || c == '\x0c'

/-- Character class `[\d.]` from `_parse_amount` / `_parse_parent_name`. -/
def isDigitDot (c : Char) : Bool :=
  c.isDigit || c == '.'

/-- Case-insensitive character comparison (re.IGNORECASE, ASCII). -/
def ciC (a b : Char) : Bool :=
  a.toLower == b.toLower

/-- Case-insensitive whole-string equality: the embedding of an anchored
Mongo regex `^<escaped literal>$` with option `i` (stated on the character
lists, which is what `String.toLower` maps over). -/
def strIEq (a b : String) : Bool :=
  a.data.map Char.toLower == b.data.map Char.toLower

/-- Substring test on character lists. -/
def containsSub (needle : List Char) : List Char → Bool
  | [] => needle.isEmpty
  | c :: cs => needle.isPrefixOf (c :: cs) || containsSub needle cs

/-- Python `needle in hay.lower()` for an already-lowercase needle. -/
def lowerContains (hay needle : String) : Bool :=
  containsSub needle.data (hay.data.map Char.toLower)

/-! ### UTC datetimes

`DT` models a timezone-aware Python `datetime` already expressed in UTC.
Comparison is lexicographic on the calendar fields, as stored by MongoDB. -/

structure DT where
  year : ℕ
  month : ℕ
  day : ℕ
  hour : ℕ
  minute : ℕ
  second : ℕ
deriving DecidableEq

/-- Strict chronological (lexicographic) order on datetimes. -/
def dtLtP (a b : DT) : Prop :=
  a.year < b.year ∨ (a.year = b.year ∧
    (a.month < b.month ∨ (a.month = b.month ∧
      (a.day < b.day ∨ (a.day = b.day ∧
        (a.hour < b.hour ∨ (a.hour = b.hour ∧
          (a.minute < b.minute ∨ (a.minute = b.minute ∧
            a.second < b.second)))))))))

instance (a b : DT) : Decidable (dtLtP a b) := by
  unfold dtLtP; infer_instance

/-- Boolean strict order on datetimes (Mongo `$lt` on date fields). -/
def dtLt (a b : DT) : Bool :=
  decide (dtLtP a b)

/-- Boolean non-strict order on datetimes (Mongo `$gte` on date fields). -/
def dtLe (a b : DT) : Bool :=
  !(dtLt b a)

/-- `now.replace(day=1, hour=0, minute=0, second=0, microsecond=0)` /
`datetime(now.year, now.month, 1)`: start of the current calendar month. -/
def monthStart (now : DT) : DT :=
  ⟨now.year, now.month, 1, 0, 0, 0⟩

/-- Start of the next calendar month, with the explicit December branch of
`check_invoice_exists`. -/
def nextMonthStart (now : DT) : DT :=
  if now.month == 12 then ⟨now.year + 1, 1, 1, 0, 0, 0⟩
  else ⟨now.year, now.month + 1, 1, 0, 0, 0⟩

/-! ### Civil-calendar arithmetic

Used to embed `datetime.fromisoformat(s).astimezone(timezone.utc)`: an
offset-aware datetime is converted to UTC by shifting the absolute timeline
position by the UTC offset.  Days-from-civil and civil-from-days follow the
standard proleptic-Gregorian conversion. -/

/-- Day number of a civil date (proleptic Gregorian, epoch 1970-01-01). -/
def daysFromCivil (y m d : ℤ) : ℤ :=
  let y2 : ℤ := y - (if m ≤ 2 then 1 else 0)
  let era : ℤ := Int.fdiv y2 400
  let yoe : ℤ := y2 - era * 400
  let mp : ℤ := m + (if 2 < m then -3 else 9)
  let doy : ℤ := Int.fdiv (153 * mp + 2) 5 + d - 1
  let doe : ℤ := yoe * 365 + Int.fdiv yoe 4 - Int.fdiv yoe 100 + doy
  era * 146097 + doe - 719468

/-- Civil date of a day number (inverse of `daysFromCivil` on valid dates). -/
def civilFromDays (z0 : ℤ) : ℤ × ℤ × ℤ :=
  let z : ℤ := z0 + 719468
  let era : ℤ := Int.fdiv z 146097
  let doe : ℤ := z - era * 146097
  let yoe : ℤ := Int.fdiv (doe - Int.fdiv doe 1460 + Int.fdiv doe 36524 - Int.fdiv doe 146096) 365
  let y : ℤ := yoe + era * 400
  let doy : ℤ := doe - (365 * yoe + Int.fdiv yoe 4 - Int.fdiv yoe 100)
  let mp : ℤ := Int.fdiv (5 * doy + 2) 153
  let d : ℤ := doy - Int.fdiv (153 * mp + 2) 5 + 1
  let m : ℤ := mp + (if mp < 10 then 3 else -9)
  (y + (if m ≤ 2 then 1 else 0), m, d)

/-- Absolute timeline position (seconds since the epoch) of a datetime. -/
def dtToSecs (t : DT) : ℤ :=
  daysFromCivil (t.year : ℤ) (t.month : ℤ) (t.day : ℤ) * 86400
    + (t.hour : ℤ) * 3600 + (t.minute : ℤ) * 60 + (t.second : ℤ)

/-- Datetime of an absolute timeline position. -/
def secsToDt (s : ℤ) : DT :=
  let days : ℤ := Int.fdiv s 86400
  let rem : ℕ := (Int.emod s 86400).toNat
  let c := civilFromDays days
  ⟨c.1.toNat, c.2.1.toNat, c.2.2.toNat, rem / 3600, rem % 3600 / 60, rem % 60⟩

/-- `datetime.fromisoformat(iso).astimezone(timezone.utc)` for an offset-aware
ISO string: `t` are the calendar fields written in the string and `offSec` its
UTC offset in seconds; the result is the same instant expressed in UTC. -/
def normalizeToUTC (t : DT) (offSec : ℤ) : DT :=
  secsToDt (dtToSecs t - offSec)

/-! ### Amount handling -/

/-- Python `int(x)` on a number: truncation toward zero. -/
def pyIntTrunc (q : ℚ) : ℤ :=
  Int.tdiv q.num (q.den : ℤ)

/-- `str(int(amount))`: the amount key compared against the stored
integer-dollar string of a student record. -/
def amount_key (q : ℚ) : String :=
  toString (pyIntTrunc q)

/-! ### Data model -/

/-- A document of the `pianostudents` collection (fields used by the server). -/
structure Student where
  ParentName : String
  email : String
  amount : String
  studentName : String
deriving DecidableEq

/-- The denormalized student snapshot stored inside an invoice. -/
structure StudentSnap where
  name : String
  address : String
  email : String
  phone : String
deriving DecidableEq

/-- A document of the `invoices` collection, as built by `create_invoice`. -/
structure Invoice where
  invoicenumber : String
  students : StudentSnap
  totalamount : ℚ
  tax : ℕ
  feepaiddate : DT
  paymentstatus : String
  items : List String
  dateissued : ℕ
deriving DecidableEq

/-! ### find_student_by_parent -/

/-- Matching predicate of the `find_one` query in `find_student_by_parent`:
anchored case-insensitive regexes on `ParentName` and `email`, string equality
on `amount` against `str(int(amount))`. -/
def studentMatches (parent_name reply_to_email : String) (amount : ℚ) (s : Student) : Bool :=
  strIEq s.ParentName parent_name && strIEq s.email reply_to_email
    && (s.amount == amount_key amount)

/-- `find_student_by_parent` (success path): the first matching directory
record, if any. -/
def find_student_by_parent (parent_name reply_to_email : String) (amount : ℚ)
    (db : List Student) : Option Student :=
  db.find? (studentMatches parent_name reply_to_email amount)

/-! ### check_invoice_exists -/

/-- Matching predicate of the `find_one` query in `check_invoice_exists`:
case-insensitive e-mail equality and `feepaiddate` in the half-open current
month window `[start_of_month, end_of_month)`. -/
def invoiceMatches (now : DT) (student_email : String) (inv : Invoice) : Bool :=
  strIEq inv.students.email student_email
    && dtLe (monthStart now) inv.feepaiddate
    && dtLt inv.feepaiddate (nextMonthStart now)

/-- Core of `check_invoice_exists`: the `exists` flag and the found invoice. -/
def check_invoice_exists (now : DT) (student_email : String) (db : List Invoice) :
    Bool × Option Invoice :=
  match db.find? (invoiceMatches now student_email) with
  | some inv => (true, some inv)
  | none => (false, none)

/-- A JSON value, as far as the tool results need one. -/
inductive JVal where
  | s (v : String)
  | b (v : Bool)
  | null
  | inv (v : Invoice)
deriving DecidableEq

/-- The JSON object returned by the `check_invoice_exists` tool, as a key-value
list.  A failing storage collaborator (`dbr = .error e`) is caught by the
`try/except` and becomes a `status`/`message` object; the success object has
`exists`/`invoice` keys and no `status` key. -/
def check_invoice_exists_tool (dbr : Except String (List Invoice)) (now : DT)
    (student_email : String) : List (String × JVal) :=
  match dbr with
  | Except.error e => [("status", JVal.s "error"), ("message", JVal.s e)]
  | Except.ok db =>
    match check_invoice_exists now student_email db with
    | (true, some inv) => [("exists", JVal.b true), ("invoice", JVal.inv inv)]
    | _ => [("exists", JVal.b false), ("invoice", JVal.null)]

/-- A caller that inspects only the `exists` field of the result, reading a
missing or non-boolean field as falsy (Python `result.get("exists")`). -/
def inspectExists (r : List (String × JVal)) : Bool :=
  match List.lookup "exists" r with
  | some (JVal.b bv) => bv
  | _ => false

/-! ### create_invoice -/

/-- `create_invoice`: parses the ISO fee-paid date (given here as calendar
fields `feePaid` plus UTC offset `feeOff`, see `normalizeToUTC`), builds the
invoice document and unconditionally appends it to the `invoices` collection.
`invNum` and `issued` stand for the wall-clock derived invoice number and
`dateissued` timestamp.  Returns the inserted document and the new collection
state. -/
def create_invoice (student_name student_email : String) (amount : ℚ)
    (feePaid : DT) (feeOff : ℤ) (invNum : String) (issued : ℕ)
    (db : List Invoice) : Invoice × List Invoice :=
  let doc : Invoice :=
    { invoicenumber := invNum
      students := { name := student_name, address := "", email := student_email, phone := "" }
      totalamount := amount
      tax := 0
      feepaiddate := normalizeToUTC feePaid feeOff
      paymentstatus := "Paid"
      items := []
      dateissued := issued }
  (doc, db ++ [doc])

/-! ### Ledger operation sequences (for the once-per-month invariant) -/

/-- One single-threaded ledger operation: an existence check (at clock time
`now`) or an invoice creation. -/
inductive LedgerOp where
  | check (now : DT) (email : String)
  | create (now : DT) (name email : String) (amount : ℚ)
      (feePaid : DT) (feeOff : ℤ) (invNum : String) (issued : ℕ)

/-- Run a sequence of ledger operations against the invoices collection. -/
def runOps (db : List Invoice) : List LedgerOp → List Invoice
  | [] => db
  | LedgerOp.check _ _ :: rest => runOps db rest
  | LedgerOp.create _ n e a d o num iss :: rest =>
      runOps (create_invoice n e a d o num iss db).2 rest

/-- Auxiliary walk for `guardedB`: `pending` holds the clock and e-mail of the
immediately preceding operation when that operation was a check. -/
def guardedAux (db : List Invoice) (pending : Option (DT × String)) :
    List LedgerOp → Bool
  | [] => true
  | LedgerOp.check cn ce :: rest => guardedAux db (some (cn, ce)) rest
  | LedgerOp.create _ n e a d o num iss :: rest =>
    match pending with
    | none => false
    | some (cn, ce) =>
      (ce == e) && !(check_invoice_exists cn ce db).1
        && guardedAux (create_invoice n e a d o num iss db).2 none rest

/-- The discipline claimed by the spec: every `create` is immediately preceded
by a `check` for the same student e-mail that returned `exists = false`. -/
def guardedB (db : List Invoice) (ops : List LedgerOp) : Bool :=
  guardedAux db none ops

/-- Auxiliary walk for `guardedStrongB`: as `guardedAux`, additionally
requiring each created invoice's (normalized) fee-paid date to lie in the
calendar month of its guarding check's clock and to have a valid
day-of-month. -/
def guardedStrongAux (db : List Invoice) (pending : Option (DT × String)) :
    List LedgerOp → Bool
  | [] => true
  | LedgerOp.check cn ce :: rest => guardedStrongAux db (some (cn, ce)) rest
  | LedgerOp.create _ n e a d o num iss :: rest =>
    match pending with
    | none => false
    | some (cn, ce) =>
      let u := normalizeToUTC d o
      (ce == e) && !(check_invoice_exists cn ce db).1
        && (u.year == cn.year) && (u.month == cn.month) && decide (1 ≤ u.day)
        && guardedStrongAux (create_invoice n e a d o num iss db).2 none rest

/-- The strengthened discipline of the amended claim. -/
def guardedStrongB (db : List Invoice) (ops : List LedgerOp) : Bool :=
  guardedStrongAux db none ops

/-- Two invoices for the same student e-mail (case-insensitively) whose
fee-paid dates fall in the same calendar month. -/
def sameMonthConflict (a b : Invoice) : Bool :=
  strIEq a.students.email b.students.email
    && (a.feepaiddate.year == b.feepaiddate.year)
    && (a.feepaiddate.month == b.feepaiddate.month)

/-- The governing invariant: no two invoices in the collection conflict. -/
def monthDupFree : List Invoice → Bool
  | [] => true
  | inv :: rest => rest.all (fun j => !sameMonthConflict inv j) && monthDupFree rest

/-- All stored fee-paid dates have a valid (positive) day of month. -/
def daysValidB (db : List Invoice) : Bool :=
  db.all (fun i => decide (1 ≤ i.feepaiddate.day))

/-! ### The subject-line parsers

`_parse_parent_name` embeds
`re.search(r"received \$[\d.]+\s+from\s+(.+?)\s+and\s+it\s+has\s+been", subject, re.IGNORECASE)`
as an explicit backtracking matcher.  Candidate order mirrors the `re` engine:
search positions left to right, greedy `+` tries the longest consumption
first, the lazy group `(.+?)` tries the shortest extension first. -/

/-- Match a case-insensitive literal at the head of the input, returning the
rest of the input on success. -/
def matchLitCI : List Char → List Char → Option (List Char)
  | [], cs => some cs
  | _ :: _, [] => none
  | n :: ns, c :: cs => if ciC c n then matchLitCI ns cs else none

/-- All suffixes reachable by consuming one or more characters of class `p`
from the head, longest consumption first (a greedy `+` over `p`). -/
def runSplits (p : Char → Bool) : List Char → List (List Char)
  | [] => []
  | c :: cs => if p c then runSplits p cs ++ [cs] else []

/-- Match `\s+<kw>` (keyword case-insensitive) and continue with `next`. -/
def matchKw (kw : List Char) (next : List Char → Bool) (cs : List Char) : Bool :=
  (runSplits isPySpace cs).any (fun r =>
    match matchLitCI kw r with
    | some r2 => next r2
    | none => false)

/-- Match `\s+and\s+it\s+has\s+been` (the part of the pattern that follows the
lazy group; the regex is unanchored at the end). -/
def matchTail (cs : List Char) : Bool :=
  matchKw "and".data (matchKw "it".data (matchKw "has".data (matchKw "been".data (fun _ => true)))) cs

/-- The lazy group `(.+?)` followed by `matchTail`: grow the group one
character at a time (shortest first); `.` does not match a newline. -/
def groupAux (acc : List Char) : List Char → Option (List Char)
  | [] => none
  | c :: cs =>
    if c == '\n' then none
    else if matchTail cs then some (acc ++ [c])
    else groupAux (acc ++ [c]) cs

/-- Match `\s+(.+?)\s+and\s+it\s+has\s+been`, returning the group. -/
def matchGroup (cs : List Char) : Option (List Char) :=
  (runSplits isPySpace cs).findSome? (fun r => groupAux [] r)

/-- Match the whole pattern anchored at the head of the input, returning the
lazy group. -/
def matchAt (cs : List Char) : Option (List Char) :=
  match matchLitCI "received $".data cs with
  | none => none
  | some r0 =>
    (runSplits isDigitDot r0).findSome? (fun r1 =>
      (runSplits isPySpace r1).findSome? (fun r2 =>
        match matchLitCI "from".data r2 with
        | none => none
        | some r3 => matchGroup r3))

/-- `re.search`: try the pattern at each position, leftmost first. -/
def reSearchParent : List Char → Option (List Char)
  | [] => none
  | c :: cs =>
    match matchAt (c :: cs) with
    | some g => some g
    | none => reSearchParent cs

/-- Python `str.strip()`: drop whitespace from both ends. -/
def pyStrip (cs : List Char) : List Char :=
  ((cs.dropWhile isPySpace).reverse.dropWhile isPySpace).reverse

/-- `_parse_parent_name`: parent name extracted from an Interac subject line,
`match.group(1).strip()` on success. -/
def _parse_parent_name (subject : String) : Option String :=
  (reSearchParent subject.data).map (fun g => String.mk (pyStrip g))

/-- Numeric value of a digit run. -/
def digitsVal (ds : List Char) : ℕ :=
  ds.foldl (fun a c => 10 * a + (c.toNat - 48)) 0

/-- `_parse_amount` on the character list: leftmost `\$(\d+(?:\.\d+)?)`,
greedy digit runs, the fractional part optional. -/
def _parse_amount_core : List Char → Option ℚ
  | [] => none
  | '$' :: cs =>
    let ip := cs.takeWhile Char.isDigit
    if ip.isEmpty then _parse_amount_core cs
    else
      match cs.dropWhile Char.isDigit with
      | '.' :: cs2 =>
        let fp := cs2.takeWhile Char.isDigit
        if fp.isEmpty then some ((digitsVal ip : ℚ))
        else some ((digitsVal ip : ℚ) + (digitsVal fp : ℚ) / ((10 : ℚ) ^ fp.length))
      | _ => some ((digitsVal ip : ℚ))
  | _ :: cs => _parse_amount_core cs

/-- `_parse_amount`: dollar amount extracted from the subject as `float`. -/
def _parse_amount (subject : String) : Option ℚ :=
  _parse_amount_core subject.data

/-- Character class `[\w.\-+]` (local part of the reply-to address regex). -/
def isW1 (c : Char) : Bool :=
  c.isAlphanum || c == '_' || c == '.' || c == '-' || c == '+'

/-- Character class `[\w.\-]` (domain part of the reply-to address regex). -/
def isW2 (c : Char) : Bool :=
  c.isAlphanum || c == '_' || c == '.' || c == '-'

/-- `re.search(r"[\w.\-+]+@[\w.\-]+", val)`: the first address-like token. -/
def findEmailToken : List Char → Option (List Char)
  | [] => none
  | c :: cs =>
    if isW1 c then
      match (c :: cs).dropWhile isW1 with
      | '@' :: cs2 =>
        let dom := cs2.takeWhile isW2
        if dom.isEmpty then findEmailToken cs
        else some ((c :: cs).takeWhile isW1 ++ '@' :: dom)
      | _ => findEmailToken cs
    else findEmailToken cs

/-- `_extract_reply_to` combined with the `or headers.get("reply-to", "")`
fallback of the caller: address token if one is found, else the raw header
value, else the empty string. -/
def _extract_reply_to (header : Option String) : String :=
  match header with
  | none => ""
  | some val =>
    match findEmailToken val.data with
    | some tok => String.mk tok
    | none => val

/-! ### search_interac_emails -/

/-- One raw Gmail message: id, subject header, optional reply-to header,
optional parsed date header, and the provider-side received time used by the
`after:` query operator. -/
structure RawMsg where
  id : String
  subject : String
  replyTo : Option String
  dateHeader : Option DT
  internalDate : DT
deriving DecidableEq

/-- One entry of the JSON list returned by `search_interac_emails`. -/
structure EmailOut where
  messageId : String
  subject : String
  replyTo : String
  dateReceived : Option DT
  parentName : Option String
  amount : Option ℚ
deriving DecidableEq

/-- Build one output entry from a raw message. -/
def mkEmailOut (m : RawMsg) : EmailOut :=
  { messageId := m.id
    subject := m.subject
    replyTo := _extract_reply_to m.replyTo
    dateReceived := m.dateHeader
    parentName := _parse_parent_name m.subject
    amount := _parse_amount m.subject }

/-- The Gmail query
`subject:"Interac e-Transfer" subject:"automatically deposited" after:<start of month>`.
Modelled: the `subject:` operator is approximated as case-insensitive substring
containment, `after:` as received-time at or after the start of the current
month. -/
def gmailQueryMatch (now : DT) (m : RawMsg) : Bool :=
  lowerContains m.subject "interac e-transfer"
    && lowerContains m.subject "automatically deposited"
    && dtLe (monthStart now) m.internalDate

/-- Result payload of the `search_interac_emails` tool. -/
inductive SearchToolOut where
  | ok (emails : List EmailOut)
  | noEmails
  | err (msg : String)
deriving DecidableEq

/-- Core of `search_interac_emails`: a single `messages.list` call with
`maxResults=50` (no pagination), then the per-message subject re-check. -/
def search_interac_emails (inbox : List RawMsg) (now : DT) : SearchToolOut :=
  let refs := (inbox.filter (gmailQueryMatch now)).take 50
  match refs with
  | [] => SearchToolOut.noEmails
  | _ =>
    SearchToolOut.ok
      ((refs.filter (fun m => lowerContains m.subject "automatically deposited")).map mkEmailOut)

/-- The `search_interac_emails` tool with its `try/except`: the `Except`
return type is the exception channel (`.error` = an exception propagates to
the caller), and `svc` is the Gmail collaborator, which either yields the
mailbox or fails.  The catch-all `except` turns any failure into a normal
`status = error` payload, so the tool never produces `.error`. -/
def search_interac_emails_tool (svc : Except String (List RawMsg)) (now : DT) :
    Except String SearchToolOut :=
  match svc with
  | Except.error e => Except.ok (SearchToolOut.err e)
  | Except.ok inbox => Except.ok (search_interac_emails inbox now)

/-- Does a tool result propagate an exception to the caller? -/
def raisesException (r : Except String SearchToolOut) : Bool :=
  match r with
  | Except.error _ => true
  | Except.ok _ => false

/-- The e-mail list carried by a search result (empty for the other shapes). -/
def emailsOf (r : SearchToolOut) : List EmailOut :=
  match r with
  | SearchToolOut.ok l => l
  | _ => []

/-! ### Receipt rendering (`receipt_generator.py`) -/

/-- `strftime %b`: abbreviated month name. -/
def monthAbbr : ℕ → String
  | 1 => "Jan" | 2 => "Feb" | 3 => "Mar" | 4 => "Apr" | 5 => "May" | 6 => "Jun"
  | 7 => "Jul" | 8 => "Aug" | 9 => "Sep" | 10 => "Oct" | 11 => "Nov" | 12 => "Dec"
  | _ => ""

/-- Zero-padded two-digit field (`strftime %d`). -/
def pad2 (n : ℕ) : String :=
  if n < 10 then "0" ++ Nat.repr n else Nat.repr n

/-- `paid_on.strftime("%b %d, %Y")`. -/
def strftimeBDY (t : DT) : String :=
  monthAbbr t.month ++ " " ++ pad2 t.day ++ ", " ++ Nat.repr t.year

/-- `fee_paid_date.strftime("%b %Y")`. -/
def strftimeBY (t : DT) : String :=
  monthAbbr t.month ++ " " ++ Nat.repr t.year

/-- Python `format(x, ",.0f")` rounding step: round to the nearest integer,
ties to even (the IEEE rounding used by `%.0f`).  Written on the numerator and
denominator: `f` is the floor of `q` and `rm / den` its fractional part, which
is compared against one half. -/
def roundHalfEven (q : ℚ) : ℤ :=
  let d : ℤ := (q.den : ℤ)
  let f : ℤ := Int.fdiv q.num d
  let rm : ℤ := q.num - f * d
  if 2 * rm < d then f
  else if d < 2 * rm then f + 1
  else if f % 2 = 0 then f else f + 1

/-- Insert a comma after every third character of a reversed digit run. -/
def commaRev : List Char → List Char
  | a :: b :: c :: d :: rest => a :: b :: c :: ',' :: commaRev (d :: rest)
  | l => l

/-- Thousands grouping of a digit string. -/
def commaGroup (s : List Char) : List Char :=
  (commaRev s.reverse).reverse

/-- Decimal rendering of an integer with thousands separators. -/
def intCommaStr (z : ℤ) : String :=
  (if z < 0 then "-" else "") ++ String.mk (commaGroup (Nat.repr z.natAbs).data)

/-- `f"${amount:,.0f}"`: the price string rendered on the receipt. -/
def dollarFmt (q : ℚ) : String :=
  "$" ++ intCommaStr (roundHalfEven q)

/-- Read a whole-dollar price string back as the rational it denotes: a `$`
sign followed by a comma-grouped digit string.  Formalizes the claim language
of a line item being "priced at" an amount. -/
def parseDollar (s : String) : Option ℚ :=
  match s.data with
  | '$' :: rest =>
    let ds := rest.filter (fun c => !(c == ','))
    if ds.all Char.isDigit && !ds.isEmpty then some ((digitsVal ds : ℚ)) else none
  | _ => none

/-- The semantic content of the rendered PDF: every text field
`generate_receipt` places in the document. -/
structure Receipt where
  receiptNumber : String
  paidOnLine : String
  academyName : String
  academyAddress : String
  academyCity : String
  studentName : String
  studentEmail : String
  paymentMethod : String
  checkNum : String
  itemName : String
  itemPrice : String
  totalLine : String
deriving DecidableEq

/-- `generate_receipt` (with the default academy identity from the
environment defaults): the receipt artifact handed to the PDF renderer. -/
def generate_receipt (receipt_number : String) (paid_on : DT)
    (student_name student_email : String) (amount : ℚ) : Receipt :=
  { receiptNumber := receipt_number
    paidOnLine := "Paid on : " ++ strftimeBDY paid_on
    academyName := "SJ Piano Academy."
    academyAddress := "2869 Battleford Rd"
    academyCity := "Mississauga,ON L5N 2S6"
    studentName := student_name
    studentEmail := student_email
    paymentMethod := "E Transfer"
    checkNum := "NA"
    itemName := "Piano Class"
    itemPrice := dollarFmt amount
    totalLine := "<b>Total: " ++ dollarFmt amount ++ "</b>" }

/-! ### send_thank_you_email -/

/-- An outbound e-mail as assembled by `send_thank_you_email`. -/
structure EmailMsg where
  fromAddr : String
  toAddr : String
  subject : String
  bcc : String
  bodyText : String
  attachmentName : String
  attachment : Receipt
deriving DecidableEq

/-- JSON result of the `send_thank_you_email` tool. -/
inductive SendResult where
  | ok (message : String) (receipt_number : String)
  | err (msg : String)
deriving DecidableEq

/-- `send_thank_you_email`: builds the PDF receipt and the MIME message and
hands it to SMTP (`smtp` is the transport collaborator outcome).  State
threaded through: the `invoices` collection and the outbox of delivered
mails.  The tool reads and writes no MongoDB collection. -/
def send_thank_you_email (smtp : Except String Unit) (smtpUser bccEmail : String)
    (student_name student_email : String) (amount : ℚ) (invoice_number : String)
    (feePaid : DT) (feeOff : ℤ) (invoices : List Invoice) (outbox : List EmailMsg) :
    List Invoice × List EmailMsg × SendResult :=
  let fee := normalizeToUTC feePaid feeOff
  let pdf := generate_receipt invoice_number fee student_name student_email amount
  let msg : EmailMsg :=
    { fromAddr := smtpUser
      toAddr := student_email
      subject := "Receipt for lesson payment " ++ strftimeBY fee ++ " | SJ Piano Academy"
      bcc := bccEmail
      bodyText := "We have attached a digital copy of your receipt for your convenience."
      attachmentName := "Receipt_" ++ invoice_number ++ ".pdf"
      attachment := pdf }
  match smtp with
  | Except.ok _ =>
    (invoices, outbox ++ [msg],
      SendResult.ok ("Thank you email sent to " ++ student_email) invoice_number)
  | Except.error e => (invoices, outbox, SendResult.err e)

/-! ### Declarative pattern predicates (spec side of the parser claims) -/

/-- A nonempty run of characters of class `p`. -/
def WRun (p : Char → Bool) (w : List Char) : Prop :=
  w ≠ [] ∧ ∀ c ∈ w, p c = true

/-- A nonempty whitespace run. -/
def WSL (w : List Char) : Prop :=
  WRun isPySpace w

/-- A nonempty `[\d.]` run. -/
def DDL (w : List Char) : Prop :=
  WRun isDigitDot w

/-- Case-insensitive equality of character lists. -/
def CIL (a b : List Char) : Prop :=
  a.map Char.toLower = b.map Char.toLower

/-- A valid lazy-group content: nonempty, no newline. -/
def GRP (g : List Char) : Prop :=
  g ≠ [] ∧ ∀ c ∈ g, (c == '\n') = false

/-- Declarative form of `\s+and\s+it\s+has\s+been` occurring at the head
(with arbitrary text after). -/
def TailPat (cs : List Char) : Prop :=
  ∃ w1 l1 w2 l2 w3 l3 w4 l4 rest,
    cs = w1 ++ (l1 ++ (w2 ++ (l2 ++ (w3 ++ (l3 ++ (w4 ++ (l4 ++ rest)))))))
    ∧ WSL w1 ∧ CIL l1 "and".data ∧ WSL w2 ∧ CIL l2 "it".data
    ∧ WSL w3 ∧ CIL l3 "has".data ∧ WSL w4 ∧ CIL l4 "been".data

/-- Declarative form of the full pattern
`received \$[\d.]+\s+from\s+(.+?)\s+and\s+it\s+has\s+been` anchored at the
head of the input, with `g` the captured group. -/
def AtPatG (cs g : List Char) : Prop :=
  ∃ l0 dd w1 l1 w2 t,
    cs = l0 ++ (dd ++ (w1 ++ (l1 ++ (w2 ++ (g ++ t)))))
    ∧ CIL l0 "received $".data ∧ DDL dd ∧ WSL w1 ∧ CIL l1 "from".data
    ∧ WSL w2 ∧ GRP g ∧ TailPat t

/-- The full pattern anchored at the head, with some captured group. -/
def AtPat (cs : List Char) : Prop :=
  ∃ g, AtPatG cs g

/-- The full pattern occurring anywhere in the subject. -/
def FullPat (s : List Char) : Prop :=
  ∃ pre rest, s = pre ++ rest ∧ AtPat rest

/-- The pattern the claim describes: some text standing between the token
`from` and the token `and it has been`, both case-insensitive. -/
def BetweenTokens (s : List Char) : Prop :=
  ∃ pre l1 mid l2 rest,
    s = pre ++ (l1 ++ (mid ++ (l2 ++ rest)))
    ∧ CIL l1 "from".data ∧ CIL l2 "and it has been".data

/-! ### Concrete scenario inputs used by witnesses and counterexamples -/

/-- A March 2026 clock instant. -/
def nowMar : DT := ⟨2026, 3, 15, 12, 0, 0⟩

/-- A January 2026 fee-paid date: inside the ledger's notion of a calendar
month, but not the month of `nowMar`. -/
def janPaid : DT := ⟨2026, 1, 10, 12, 0, 0⟩

/-- A March 2026 fee-paid date. -/
def marPaid : DT := ⟨2026, 3, 10, 9, 30, 0⟩

/-- Ledger trace for the C1 counterexample: two creates for the same e-mail,
each immediately preceded by a check for that e-mail returning false, both
dated in January while the clock reads March. -/
def cexTrace : List LedgerOp :=
  [LedgerOp.check nowMar "jane@example.com",
   LedgerOp.create nowMar "Jane" "jane@example.com" 200 janPaid 0 "1001" 1,
   LedgerOp.check nowMar "jane@example.com",
   LedgerOp.create nowMar "Jane" "jane@example.com" 200 janPaid 0 "1002" 2]

/-- Ledger trace for the C1 witness: one properly guarded create dated in the
clock's own month. -/
def okTrace : List LedgerOp :=
  [LedgerOp.check nowMar "jane@example.com",
   LedgerOp.create nowMar "Jane" "jane@example.com" 200 marPaid 0 "1001" 1]

/-- The directory record of the matching scenarios: integer-dollar amount
stored as the string 200. -/
def janeStudent : Student :=
  { ParentName := "Jane Doe", email := "jane@example.com", amount := "200", studentName := "Janey" }

/-- Subject on which the code's parent-name extraction and the claim's
between-tokens description disagree: the tokens occur, the fuller pattern
(leading `received $<amount>`) does not. -/
def cexSubject4 : String := "Sent from Jane and it has been deposited"

/-- Subject of the 51-message inbox of the C5 counterexample: matches the
Gmail query and the re-check, needs no further parsing. -/
def cexSubject5 : String := "Interac e-Transfer automatically deposited"

/-- One raw message of the C5 counterexample inbox. -/
def cexMsg5 (i : ℕ) : RawMsg :=
  { id := Nat.repr i, subject := cexSubject5, replyTo := none, dateHeader := none,
    internalDate := ⟨2026, 3, 5, 0, 0, 0⟩ }

/-- 51 distinct matching messages received this month. -/
def cexInbox5 : List RawMsg :=
  (List.range 51).map cexMsg5

/-- An invoice dated exactly at the March 2026 month start. -/
def invMarchStart : Invoice :=
  { invoicenumber := "1", students := ⟨"Jane", "", "jane@example.com", ""⟩,
    totalamount := 200, tax := 0, feepaiddate := ⟨2026, 3, 1, 0, 0, 0⟩,
    paymentstatus := "Paid", items := [], dateissued := 0 }

/-- An invoice dated exactly at the April 2026 month start. -/
def invAprilStart : Invoice :=
  { invMarchStart with feepaiddate := ⟨2026, 4, 1, 0, 0, 0⟩ }

/-- An invoice dated at the end of December 2026. -/
def invDecEnd : Invoice :=
  { invMarchStart with feepaiddate := ⟨2026, 12, 31, 23, 59, 59⟩ }

/-- An invoice dated exactly at the January 2027 month start. -/
def invJanStart : Invoice :=
  { invMarchStart with feepaiddate := ⟨2027, 1, 1, 0, 0, 0⟩ }

/-- A December 2026 clock instant. -/
def nowDec : DT := ⟨2026, 12, 15, 12, 0, 0⟩

/-! ## Theorems -/

/-! ### General lemmas about the embedded operations -/

theorem check_invoice_exists_fst (now : DT) (email : String) (db : List Invoice) :
    (check_invoice_exists now email db).1 = (db.find? (invoiceMatches now email)).isSome := by
  unfold check_invoice_exists
  cases h : db.find? (invoiceMatches now email) <;> simp

theorem check_invoice_exists_iff (now : DT) (email : String) (db : List Invoice) :
    (check_invoice_exists now email db).1 = true ↔
      ∃ inv ∈ db, invoiceMatches now email inv = true := by
  rw [check_invoice_exists_fst, List.find?_isSome]

/-! ### C2: directory matching -/

/-- C2: `find_student_by_parent` returns a student record if and only if some
directory record's parent name and e-mail equal the inputs case-insensitively
(whole-string) and its stored integer-dollar string equals the input amount
truncated toward zero; in particular amount 200.99 matches a stored "200" and
199.99 does not. -/
theorem find_student_by_parent_spec :
    (∀ (p e : String) (a : ℚ) (db : List Student),
      (find_student_by_parent p e a db).isSome = true ↔
        ∃ s ∈ db, strIEq s.ParentName p = true ∧ strIEq s.email e = true
          ∧ s.amount = amount_key a)
    ∧ (find_student_by_parent "Jane Doe" "jane@example.com" (200.99 : ℚ) [janeStudent]).isSome
        = true
    ∧ (find_student_by_parent "Jane Doe" "jane@example.com" (199.99 : ℚ) [janeStudent]).isSome
        = false := by
  refine ⟨fun p e a db => ?_,
    by rw [show (200.99 : ℚ) = mkRat 20099 100 from by rw [Rat.mkRat_eq_div]; norm_num]; decide,
    by rw [show (199.99 : ℚ) = mkRat 19999 100 from by rw [Rat.mkRat_eq_div]; norm_num]; decide⟩
  unfold find_student_by_parent
  rw [List.find?_isSome]
  simp [studentMatches, Bool.and_eq_true, beq_iff_eq, and_assoc]

/-! ### C3: month-window check -/

/-- C3: `check_invoice_exists` reports true iff some invoice for the e-mail
(case-insensitive) has its fee-paid date in the half-open window
`[start of current month, start of next month)`; a payment dated exactly at
month start counts, one dated exactly at next-month start does not, and the
December-to-January rollover behaves the same way. -/
theorem check_invoice_exists_window_spec :
    (∀ (now : DT) (email : String) (db : List Invoice),
      (check_invoice_exists now email db).1 = true ↔
        ∃ inv ∈ db, strIEq inv.students.email email = true
          ∧ dtLe (monthStart now) inv.feepaiddate = true
          ∧ dtLt inv.feepaiddate (nextMonthStart now) = true)
    ∧ (check_invoice_exists nowMar "jane@example.com" [invMarchStart]).1 = true
    ∧ (check_invoice_exists nowMar "jane@example.com" [invAprilStart]).1 = false
    ∧ (check_invoice_exists nowDec "jane@example.com" [invDecEnd]).1 = true
    ∧ (check_invoice_exists nowDec "jane@example.com" [invJanStart]).1 = false := by
  refine ⟨fun now email db => ?_, by decide, by decide, by decide, by decide⟩
  rw [check_invoice_exists_iff]
  simp [invoiceMatches, Bool.and_eq_true, and_assoc]

/-! ### C6: invoice contents -/

/-- C6: the invoice stored by `create_invoice` carries exactly the notification
amount and the fee-paid timestamp normalized to UTC (the normalization is
exercised on an offset-zero instant and on a +05:30 instant that crosses a
month boundary). -/
theorem create_invoice_fields_spec :
    (∀ (n e : String) (a : ℚ) (d : DT) (o : ℤ) (num : String) (iss : ℕ)
        (db : List Invoice),
      (create_invoice n e a d o num iss db).1.totalamount = a
      ∧ (create_invoice n e a d o num iss db).1.feepaiddate = normalizeToUTC d o
      ∧ (create_invoice n e a d o num iss db).2
          = db ++ [(create_invoice n e a d o num iss db).1])
    ∧ normalizeToUTC ⟨2026, 2, 15, 14, 30, 0⟩ 0 = ⟨2026, 2, 15, 14, 30, 0⟩
    ∧ normalizeToUTC ⟨2026, 3, 1, 1, 0, 0⟩ 19800 = ⟨2026, 2, 28, 19, 30, 0⟩ := by
  exact ⟨fun n e a d o num iss db => ⟨rfl, rfl, rfl⟩, by decide, by decide⟩

/-! ### C7: receipt price and total -/

theorem roundHalfEven_natCast (k : ℕ) : roundHalfEven (k : ℚ) = (k : ℤ) := by
  unfold roundHalfEven
  simp [Rat.num_natCast, Rat.den_natCast, Int.fdiv_one]

/-- C7 counterexample: at the whole-plus-half amount 200.5 the rendered line
item price denotes 200 dollars, not the full amount; the claim that the item
is "priced at the full amount" fails at this input. -/
theorem generate_receipt_full_amount_cex :
    mkRat 401 2 = (200.5 : ℚ)
    ∧ (generate_receipt "1764355491540" ⟨2026, 2, 15, 14, 30, 0⟩ "Yanish"
        "yanish@example.com" (mkRat 401 2)).itemPrice = "$200"
    ∧ parseDollar ((generate_receipt "1764355491540" ⟨2026, 2, 15, 14, 30, 0⟩ "Yanish"
        "yanish@example.com" (mkRat 401 2)).itemPrice) = some 200
    ∧ ¬ ((200 : ℚ) = mkRat 401 2) := by
  refine ⟨by rw [Rat.mkRat_eq_div]; norm_num, by decide, by decide, by decide⟩

/-- C7 (amended): the receipt's line item is "Piano Class" priced at the
amount rounded half-to-even to a whole number of dollars (comma-grouped), the
total line shows that same rounded price, and for whole-dollar amounts the
rounded price is the full amount. -/
theorem generate_receipt_price_total :
    (∀ (num : String) (paid : DT) (n e : String) (q : ℚ),
        (generate_receipt num paid n e q).itemName = "Piano Class"
        ∧ (generate_receipt num paid n e q).itemPrice = "$" ++ intCommaStr (roundHalfEven q)
        ∧ (generate_receipt num paid n e q).totalLine
            = "<b>Total: " ++ (generate_receipt num paid n e q).itemPrice ++ "</b>")
    ∧ (∀ k : ℕ, roundHalfEven (k : ℚ) = (k : ℤ))
    ∧ parseDollar (dollarFmt (200 : ℚ)) = some 200
    ∧ parseDollar (dollarFmt (1234567 : ℚ)) = some 1234567 := by
  exact ⟨fun num paid n e q => ⟨rfl, rfl, rfl⟩, roundHalfEven_natCast, by decide, by decide⟩

/-! ### C8: retrieval failure handling -/

/-- C8 counterexample: with the retrieval collaborator failing, the tool does
not propagate the failure out of the entry point; the exception channel stays
empty. -/
theorem search_tool_no_propagation_cex :
    raisesException (search_interac_emails_tool (Except.error "gmail unreachable") nowMar)
      = false := by
  rfl

/-- C8 (amended): a failure of the initial message retrieval is caught by the
tool's catch-all handler and converted into a normal (non-raising) result
carrying a status-error payload with the underlying message. -/
theorem search_tool_catches_retrieval_failure :
    ∀ (e : String) (now : DT),
      search_interac_emails_tool (Except.error e) now = Except.ok (SearchToolOut.err e) :=
  fun _ _ => rfl

/-! ### C9: asymmetric result shape of check_invoice_exists -/

/-- C9: on failure the `check_invoice_exists` result carries `status = error`
and no `exists` key; on success it carries an `exists` boolean and no `status`
key; consequently a caller inspecting only the `exists` field reads false both
on a storage failure and on a no-invoice-this-month success. -/
theorem check_invoice_exists_shape :
    (∀ (e : String) (now : DT) (email : String),
        List.lookup "exists" (check_invoice_exists_tool (Except.error e) now email) = none
        ∧ List.lookup "status" (check_invoice_exists_tool (Except.error e) now email)
            = some (JVal.s "error"))
    ∧ (∀ (db : List Invoice) (now : DT) (email : String),
        List.lookup "status" (check_invoice_exists_tool (Except.ok db) now email) = none
        ∧ ∃ bv, List.lookup "exists" (check_invoice_exists_tool (Except.ok db) now email)
            = some (JVal.b bv))
    ∧ (∀ (e : String) (now : DT) (email : String),
        inspectExists (check_invoice_exists_tool (Except.error e) now email) = false)
    ∧ (∀ (now : DT) (email : String) (db : List Invoice),
        (check_invoice_exists now email db).1 = false →
          inspectExists (check_invoice_exists_tool (Except.ok db) now email) = false) := by
  refine ⟨fun e now email => ⟨rfl, rfl⟩, fun db now email => ?_, fun e now email => rfl,
    fun now email db h => ?_⟩
  · have hre : check_invoice_exists_tool (Except.ok db) now email =
        (match check_invoice_exists now email db with
         | (true, some inv) => [("exists", JVal.b true), ("invoice", JVal.inv inv)]
         | _ => [("exists", JVal.b false), ("invoice", JVal.null)]) := rfl
    rcases hc : check_invoice_exists now email db with ⟨b, oi⟩
    rw [hre, hc]
    cases b <;> cases oi <;> exact ⟨rfl, _, rfl⟩
  · have hre : check_invoice_exists_tool (Except.ok db) now email =
        (match check_invoice_exists now email db with
         | (true, some inv) => [("exists", JVal.b true), ("invoice", JVal.inv inv)]
         | _ => [("exists", JVal.b false), ("invoice", JVal.null)]) := rfl
    rcases hc : check_invoice_exists now email db with ⟨b, oi⟩
    rw [hc] at h
    simp only at h
    rw [hre, hc]
    cases b with
    | true => exact absurd h (by simp)
    | false => cases oi <;> rfl

/-- Witness for the hypothesis-bearing part of `check_invoice_exists_shape`:
an empty ledger reports no invoice, and the caller's `exists`-only view of
that success result is false, as it is for a failing run. -/
theorem check_invoice_exists_shape_witness :
    (check_invoice_exists nowMar "jane@example.com" []).1 = false
    ∧ inspectExists (check_invoice_exists_tool (Except.ok []) nowMar "jane@example.com")
        = false :=
  ⟨by decide, check_invoice_exists_shape.2.2.2 nowMar "jane@example.com" [] (by decide)⟩

/-! ### C10: receipt issuance leaves the ledger unchanged -/

/-- C10: `send_thank_you_email` never writes to the invoices collection: for
every transport outcome the collection is returned unchanged, and a delivery
failure additionally leaves the outbox unchanged while reporting a
status-error result, so nothing anywhere records that the invoice was
receipted. -/
theorem send_thank_you_email_no_ledger_write :
    ∀ (smtpUser bccEmail student_name student_email : String) (amount : ℚ)
      (invoice_number : String) (feePaid : DT) (feeOff : ℤ)
      (invoices : List Invoice) (outbox : List EmailMsg),
      (∀ smtp, (send_thank_you_email smtp smtpUser bccEmail student_name student_email
          amount invoice_number feePaid feeOff invoices outbox).1 = invoices)
      ∧ (∀ msg, (send_thank_you_email (Except.error msg) smtpUser bccEmail student_name
          student_email amount invoice_number feePaid feeOff invoices outbox).2.1 = outbox)
      ∧ (∀ msg, (send_thank_you_email (Except.error msg) smtpUser bccEmail student_name
          student_email amount invoice_number feePaid feeOff invoices outbox).2.2
            = SendResult.err msg) := by
  intro smtpUser bccEmail n e a num d o invoices outbox
  exact ⟨fun smtp => by cases smtp <;> rfl, fun msg => rfl, fun msg => rfl⟩

/-! ### C5: completeness of the monthly retrieval -/

set_option maxRecDepth 4000 in
/-- C5 counterexample: with 51 matching deposit notifications this month, the
message with id "50" matches the query yet is omitted from the result — the
single `messages.list` call is capped at `maxResults=50` and nothing
paginates. -/
theorem search_omits_beyond_cap_cex :
    cexMsg5 50 ∈ cexInbox5
    ∧ gmailQueryMatch nowMar (cexMsg5 50) = true
    ∧ ¬ ((cexMsg5 50).id
          ∈ (emailsOf (search_interac_emails cexInbox5 nowMar)).map (fun o => o.messageId)) := by
  exact ⟨by decide, by decide, by decide⟩

/-- C5 (amended): the retrieval returns every matching deposit-notification
message of the current month provided at most 50 messages match; beyond the
50-message cap of the single list call, messages are dropped. -/
theorem search_interac_emails_cap_complete :
    ∀ (inbox : List RawMsg) (now : DT),
      (inbox.filter (gmailQueryMatch now)).length ≤ 50 →
      ∀ m ∈ inbox, gmailQueryMatch now m = true →
        m.id ∈ (emailsOf (search_interac_emails inbox now)).map (fun o => o.messageId) := by
  intro inbox now hlen m hm hq
  have hmem : m ∈ inbox.filter (gmailQueryMatch now) := List.mem_filter.mpr ⟨hm, hq⟩
  have hdep : lowerContains m.subject "automatically deposited" = true := by
    unfold gmailQueryMatch at hq
    rw [Bool.and_eq_true, Bool.and_eq_true] at hq
    exact hq.1.2
  unfold search_interac_emails
  rw [List.take_of_length_le hlen]
  cases hfe : inbox.filter (gmailQueryMatch now) with
  | nil => rw [hfe] at hmem; cases hmem
  | cons x xs =>
    rw [hfe] at hmem
    refine List.mem_map.mpr ⟨mkEmailOut m, List.mem_map.mpr ⟨m, ?_, rfl⟩, rfl⟩
    exact List.mem_filter.mpr ⟨hmem, hdep⟩

/-- Witness for `search_interac_emails_cap_complete` at a one-message inbox. -/
theorem search_interac_emails_cap_complete_witness :
    (([cexMsg5 0].filter (gmailQueryMatch nowMar)).length ≤ 50
      ∧ cexMsg5 0 ∈ [cexMsg5 0] ∧ gmailQueryMatch nowMar (cexMsg5 0) = true)
    ∧ (cexMsg5 0).id
        ∈ (emailsOf (search_interac_emails [cexMsg5 0] nowMar)).map (fun o => o.messageId) :=
  ⟨⟨by decide, by decide, by decide⟩,
    search_interac_emails_cap_complete [cexMsg5 0] nowMar (by decide) (cexMsg5 0)
      (by decide) (by decide)⟩

/-! ### C1: the once-per-month ledger invariant -/

theorem monthDupFree_append (db : List Invoice) (x : Invoice) :
    monthDupFree (db ++ [x])
      = (monthDupFree db && db.all (fun i => !sameMonthConflict i x)) := by
  induction db with
  | nil => simp [monthDupFree]
  | cons a rest ih =>
    have lhs : monthDupFree ((a :: rest) ++ [x])
        = ((rest ++ [x]).all (fun j => !sameMonthConflict a j)
            && monthDupFree (rest ++ [x])) := rfl
    have rhs : monthDupFree (a :: rest)
        = (rest.all (fun j => !sameMonthConflict a j) && monthDupFree rest) := rfl
    rw [lhs, rhs, List.all_append, ih, List.all_cons, List.all_cons, List.all_nil]
    cases rest.all (fun j => !sameMonthConflict a j) <;>
      cases monthDupFree rest <;>
      cases rest.all (fun i => !sameMonthConflict i x) <;>
      cases sameMonthConflict a x <;> rfl

theorem daysValidB_append (db : List Invoice) (x : Invoice) :
    daysValidB (db ++ [x]) = (daysValidB db && decide (1 ≤ x.feepaiddate.day)) := by
  simp [daysValidB, List.all_append]

theorem inWindow_of_same_month (cn x : DT) (hy : x.year = cn.year) (hm : x.month = cn.month)
    (hd : 1 ≤ x.day) :
    dtLe (monthStart cn) x = true ∧ dtLt x (nextMonthStart cn) = true := by
  constructor
  · simp only [dtLe, dtLt, Bool.not_eq_true', decide_eq_false_iff_not, dtLtP, monthStart]
    omega
  · by_cases h12 : cn.month = 12
    · have hn : nextMonthStart cn = ⟨cn.year + 1, 1, 1, 0, 0, 0⟩ := by
        simp [nextMonthStart, h12]
      rw [hn]
      simp only [dtLt, decide_eq_true_eq, dtLtP]
      omega
    · have hn : nextMonthStart cn = ⟨cn.year, cn.month + 1, 1, 0, 0, 0⟩ := by
        simp [nextMonthStart, h12]
      rw [hn]
      simp only [dtLt, decide_eq_true_eq, dtLtP]
      omega

theorem invoiceMatches_of_month (cn : DT) (ce : String) (i : Invoice)
    (he : strIEq i.students.email ce = true)
    (hy : i.feepaiddate.year = cn.year) (hm : i.feepaiddate.month = cn.month)
    (hd : 1 ≤ i.feepaiddate.day) :
    invoiceMatches cn ce i = true := by
  obtain ⟨h1, h2⟩ := inWindow_of_same_month cn i.feepaiddate hy hm hd
  unfold invoiceMatches
  rw [he, h1, h2]
  rfl

theorem check_false_no_match (cn : DT) (ce : String) (db : List Invoice)
    (hchk : (check_invoice_exists cn ce db).1 = false) :
    ∀ i ∈ db, invoiceMatches cn ce i = false := by
  intro i hi
  rw [check_invoice_exists_fst] at hchk
  have hnone : db.find? (invoiceMatches cn ce) = none := by
    cases hf : db.find? (invoiceMatches cn ce) with
    | none => rfl
    | some v => rw [hf] at hchk; cases hchk
  simpa using List.find?_eq_none.mp hnone i hi

theorem runOps_guardedStrongAux :
    ∀ (ops : List LedgerOp) (db : List Invoice) (pending : Option (DT × String)),
      monthDupFree db = true → daysValidB db = true →
      guardedStrongAux db pending ops = true →
      monthDupFree (runOps db ops) = true ∧ daysValidB (runOps db ops) = true := by
  intro ops
  induction ops with
  | nil => exact fun db pending h1 h2 _ => ⟨h1, h2⟩
  | cons op rest ih =>
    intro db pending h1 h2 hg
    cases op with
    | check cn ce =>
      exact ih db (some (cn, ce)) h1 h2 hg
    | create now n e a d o num iss =>
      cases pending with
      | none => exact absurd hg (by simp [guardedStrongAux])
      | some p =>
        rcases p with ⟨cn, ce⟩
        simp only [guardedStrongAux, Bool.and_eq_true, Bool.not_eq_true',
          beq_iff_eq, decide_eq_true_eq] at hg
        obtain ⟨⟨⟨⟨⟨hce, hchk⟩, hy⟩, hm⟩, hd⟩, hrest⟩ := hg
        have hnomatch := check_false_no_match cn ce db hchk
        have hall : db.all (fun i =>
            !sameMonthConflict i (create_invoice n e a d o num iss db).1) = true := by
          rw [List.all_eq_true]
          intro i hi
          rw [Bool.not_eq_true', Bool.eq_false_iff]
          intro hcf
          simp only [sameMonthConflict, create_invoice, Bool.and_eq_true, beq_iff_eq] at hcf
          obtain ⟨⟨hie, hiy⟩, him⟩ := hcf
          have hie2 : strIEq i.students.email ce = true := by rw [hce]; exact hie
          have hid : 1 ≤ i.feepaiddate.day := by
            have := (List.all_eq_true.mp h2) i hi
            simpa using this
          have := invoiceMatches_of_month cn ce i hie2 (by rw [hiy, hy]) (by rw [him, hm]) hid
          rw [hnomatch i hi] at this
          cases this
        have h1' : monthDupFree (create_invoice n e a d o num iss db).2 = true := by
          show monthDupFree (db ++ [(create_invoice n e a d o num iss db).1]) = true
          rw [monthDupFree_append, h1, hall]
          rfl
        have h2' : daysValidB (create_invoice n e a d o num iss db).2 = true := by
          show daysValidB (db ++ [(create_invoice n e a d o num iss db).1]) = true
          rw [daysValidB_append, h2]
          simp only [create_invoice]
          rw [decide_eq_true (by exact hd)]
          rfl
        exact ih (create_invoice n e a d o num iss db).2 none h1' h2' hrest

/-- C1 counterexample: a single-threaded sequence in which every create is
immediately preceded by a check for the same e-mail returning false, yet the
final store holds two invoices for that e-mail dated in the same calendar
month — the checks look only at the clock's current month (March) while both
creates carry January fee-paid dates. -/
theorem ledger_once_per_month_cex :
    guardedB [] cexTrace = true ∧ monthDupFree (runOps [] cexTrace) = false :=
  ⟨by decide, by decide⟩

/-- C1 (amended): under the check-then-create discipline, and provided
additionally that each created invoice's normalized fee-paid date lies in the
calendar month of its guarding check's clock (with a valid day of month), a
store satisfying the once-per-month invariant with valid days still satisfies
the invariant after the sequence; `create_invoice` itself performs no
existence re-check and inserts unconditionally. -/
theorem ledger_once_per_month_invariant :
    (∀ (ops : List LedgerOp) (db : List Invoice),
      monthDupFree db = true → daysValidB db = true →
      guardedStrongB db ops = true →
      monthDupFree (runOps db ops) = true)
    ∧ (∀ (n e : String) (a : ℚ) (d : DT) (o : ℤ) (num : String) (iss : ℕ)
        (db : List Invoice),
        (create_invoice n e a d o num iss db).2
          = db ++ [(create_invoice n e a d o num iss db).1]) :=
  ⟨fun ops db h1 h2 hg => (runOps_guardedStrongAux ops db none h1 h2 hg).1,
   fun _ _ _ _ _ _ _ _ => rfl⟩

/-- Witness for `ledger_once_per_month_invariant` on a concrete well-dated
trace starting from the empty store. -/
theorem ledger_once_per_month_invariant_witness :
    (monthDupFree [] = true ∧ daysValidB [] = true ∧ guardedStrongB [] okTrace = true)
    ∧ monthDupFree (runOps [] okTrace) = true :=
  ⟨⟨by decide, by decide, by decide⟩,
   ledger_once_per_month_invariant.1 okTrace [] (by decide) (by decide) (by decide)⟩

/-! ### C4: parent-name extraction

Soundness and completeness of each combinator of the backtracking matcher
with respect to the declarative pattern, leading to the characterization of
`_parse_parent_name`. -/

theorem findSome?_sound {α β : Type} (f : α → Option β) :
    ∀ (l : List α) (b : β), l.findSome? f = some b → ∃ a ∈ l, f a = some b := by
  intro l
  induction l with
  | nil => intro b h; cases h
  | cons a as ih =>
    intro b h
    rw [List.findSome?_cons] at h
    cases hf : f a with
    | some v =>
      simp only [hf] at h
      exact ⟨a, List.mem_cons_self a as, by rw [hf, h]⟩
    | none =>
      simp only [hf] at h
      obtain ⟨a2, ha2, hfa2⟩ := ih b h
      exact ⟨a2, List.mem_cons_of_mem a ha2, hfa2⟩

theorem findSome?_isSome {α β : Type} (f : α → Option β) :
    ∀ (l : List α) (a : α), a ∈ l → (f a).isSome = true →
      (l.findSome? f).isSome = true := by
  intro l
  induction l with
  | nil => intro a ha; cases ha
  | cons x xs ih =>
    intro a ha hf
    rw [List.findSome?_cons]
    cases hx : f x with
    | some v => simp
    | none =>
      rcases List.mem_cons.mp ha with rfl | ha2
      · rw [hx] at hf; cases hf
      · exact ih a ha2 hf

theorem matchLitCI_sound :
    ∀ (ns cs r : List Char), matchLitCI ns cs = some r →
      ∃ p, cs = p ++ r ∧ CIL p ns := by
  intro ns
  induction ns with
  | nil =>
    intro cs r h
    cases h
    exact ⟨[], rfl, rfl⟩
  | cons n ns ih =>
    intro cs r h
    cases cs with
    | nil => cases h
    | cons c cs2 =>
      unfold matchLitCI at h
      by_cases hc : ciC c n = true
      · rw [if_pos hc] at h
        obtain ⟨p2, hp2, hcil⟩ := ih cs2 r h
        refine ⟨c :: p2, by rw [hp2]; rfl, ?_⟩
        unfold CIL at hcil ⊢
        unfold ciC at hc
        simp only [List.map_cons, hcil, List.cons.injEq, and_true]
        exact beq_iff_eq.mp hc
      · rw [if_neg hc] at h
        cases h

theorem matchLitCI_complete :
    ∀ (ns p : List Char), CIL p ns →
      ∀ r, matchLitCI ns (p ++ r) = some r := by
  intro ns
  induction ns with
  | nil =>
    intro p hp r
    unfold CIL at hp
    simp only [List.map_nil, List.map_eq_nil_iff] at hp
    rw [hp]
    rfl
  | cons n ns ih =>
    intro p hp r
    cases p with
    | nil => unfold CIL at hp; cases hp
    | cons c p2 =>
      unfold CIL at hp
      simp only [List.map_cons, List.cons.injEq] at hp
      obtain ⟨hc, hp2⟩ := hp
      show matchLitCI (n :: ns) (c :: (p2 ++ r)) = some r
      unfold matchLitCI
      rw [if_pos (by unfold ciC; exact beq_iff_eq.mpr hc)]
      exact ih p2 hp2 r

theorem runSplits_sound (p : Char → Bool) :
    ∀ (cs r : List Char), r ∈ runSplits p cs →
      ∃ w, cs = w ++ r ∧ WRun p w := by
  intro cs
  induction cs with
  | nil => intro r hr; cases hr
  | cons c cs2 ih =>
    intro r hr
    unfold runSplits at hr
    by_cases hc : p c = true
    · rw [if_pos hc] at hr
      rcases List.mem_append.mp hr with hl | hr1
      · obtain ⟨w2, hw2, hwne, hwall⟩ := ih r hl
        refine ⟨c :: w2, by rw [hw2]; rfl, List.cons_ne_nil c w2, ?_⟩
        intro d hd
        rcases List.mem_cons.mp hd with rfl | hd2
        · exact hc
        · exact hwall d hd2
      · rw [List.mem_singleton.mp hr1]
        exact ⟨[c], rfl, List.cons_ne_nil c [], by
          intro d hd
          rw [List.mem_singleton.mp hd]
          exact hc⟩
    · rw [if_neg hc] at hr
      cases hr

theorem runSplits_complete (p : Char → Bool) :
    ∀ (w r : List Char), WRun p w → r ∈ runSplits p (w ++ r) := by
  intro w
  induction w with
  | nil => intro r hw; exact absurd rfl hw.1
  | cons c w2 ih =>
    intro r hw
    have hc : p c = true := hw.2 c (List.mem_cons_self c w2)
    show r ∈ runSplits p (c :: (w2 ++ r))
    unfold runSplits
    rw [if_pos hc]
    cases hw2 : w2 with
    | nil => simp [hw2]
    | cons c2 w3 =>
      refine List.mem_append.mpr (Or.inl ?_)
      rw [← hw2]
      exact ih r ⟨by rw [hw2]; exact List.cons_ne_nil c2 w3, by
        intro d hd
        exact hw.2 d (List.mem_cons_of_mem c hd)⟩

theorem matchKw_sound (kw : List Char) (next : List Char → Bool) (cs : List Char)
    (h : matchKw kw next cs = true) :
    ∃ w l r2, cs = w ++ (l ++ r2) ∧ WSL w ∧ CIL l kw ∧ next r2 = true := by
  unfold matchKw at h
  obtain ⟨r, hr, hcond⟩ := List.any_eq_true.mp h
  obtain ⟨w, hcs, hw⟩ := runSplits_sound isPySpace cs r hr
  cases hm : matchLitCI kw r with
  | none => rw [hm] at hcond; cases hcond
  | some r2 =>
    rw [hm] at hcond
    obtain ⟨l, hl, hcil⟩ := matchLitCI_sound kw r r2 hm
    exact ⟨w, l, r2, by rw [hcs, hl], hw, hcil, hcond⟩

theorem matchKw_complete (kw : List Char) (next : List Char → Bool)
    (w l r2 : List Char) (hw : WSL w) (hl : CIL l kw) (hn : next r2 = true) :
    matchKw kw next (w ++ (l ++ r2)) = true := by
  unfold matchKw
  refine List.any_eq_true.mpr ⟨l ++ r2, runSplits_complete isPySpace w (l ++ r2) hw, ?_⟩
  rw [matchLitCI_complete kw l hl r2]
  exact hn

theorem matchTail_iff (cs : List Char) : matchTail cs = true ↔ TailPat cs := by
  constructor
  · intro h
    unfold matchTail at h
    obtain ⟨w1, l1, r1, hcs, hw1, hl1, h1⟩ := matchKw_sound _ _ _ h
    obtain ⟨w2, l2, r2, hr1, hw2, hl2, h2⟩ := matchKw_sound _ _ _ h1
    obtain ⟨w3, l3, r3, hr2, hw3, hl3, h3⟩ := matchKw_sound _ _ _ h2
    obtain ⟨w4, l4, r4, hr3, hw4, hl4, _⟩ := matchKw_sound _ _ _ h3
    exact ⟨w1, l1, w2, l2, w3, l3, w4, l4, r4,
      by rw [hcs, hr1, hr2, hr3], hw1, hl1, hw2, hl2, hw3, hl3, hw4, hl4⟩
  · intro h
    obtain ⟨w1, l1, w2, l2, w3, l3, w4, l4, rest, hcs, hw1, hl1, hw2, hl2, hw3, hl3, hw4, hl4⟩ := h
    rw [hcs]
    unfold matchTail
    exact matchKw_complete _ _ w1 l1 _ hw1 hl1
      (matchKw_complete _ _ w2 l2 _ hw2 hl2
        (matchKw_complete _ _ w3 l3 _ hw3 hl3
          (matchKw_complete _ _ w4 l4 rest hw4 hl4 rfl)))

theorem groupAux_sound :
    ∀ (cs acc g : List Char), groupAux acc cs = some g →
      ∃ g2 t, cs = g2 ++ t ∧ g = acc ++ g2 ∧ GRP g2 ∧ matchTail t = true := by
  intro cs
  induction cs with
  | nil => intro acc g h; cases h
  | cons c cs2 ih =>
    intro acc g h
    unfold groupAux at h
    by_cases hnl : (c == '\n') = true
    · rw [if_pos hnl] at h; cases h
    · rw [if_neg hnl] at h
      by_cases hmt : matchTail cs2 = true
      · rw [if_pos hmt] at h
        refine ⟨[c], cs2, rfl, by rw [← Option.some_inj, h], ?_, hmt⟩
        exact ⟨List.cons_ne_nil c [], by
          intro d hd
          rw [List.mem_singleton.mp hd]
          exact Bool.eq_false_iff.mpr hnl⟩
      · rw [if_neg hmt] at h
        obtain ⟨g2, t, hcs2, hg, hgrp, ht⟩ := ih (acc ++ [c]) g h
        refine ⟨c :: g2, t, by rw [hcs2]; rfl, by rw [hg, List.append_assoc]; rfl, ?_, ht⟩
        refine ⟨List.cons_ne_nil c g2, ?_⟩
        intro d hd
        rcases List.mem_cons.mp hd with rfl | hd2
        · exact Bool.eq_false_iff.mpr hnl
        · exact hgrp.2 d hd2

theorem groupAux_complete :
    ∀ (g t acc : List Char), GRP g → matchTail t = true →
      (groupAux acc (g ++ t)).isSome = true := by
  intro g
  induction g with
  | nil => intro t acc hg; exact absurd rfl hg.1
  | cons c g2 ih =>
    intro t acc hg ht
    have hnl : (c == '\n') = false := hg.2 c (List.mem_cons_self c g2)
    show (groupAux acc (c :: (g2 ++ t))).isSome = true
    unfold groupAux
    rw [if_neg (by rw [hnl]; exact Bool.false_ne_true)]
    by_cases hmt : matchTail (g2 ++ t) = true
    · rw [if_pos hmt]; rfl
    · rw [if_neg hmt]
      cases hg2 : g2 with
      | nil =>
        rw [hg2] at hmt
        exact absurd ht hmt
      | cons c2 g3 =>
        rw [show c2 :: g3 ++ t = g2 ++ t from by rw [hg2]]
        refine ih t (acc ++ [c]) ⟨by rw [hg2]; exact List.cons_ne_nil c2 g3, ?_⟩ ht
        intro d hd
        exact hg.2 d (List.mem_cons_of_mem c hd)

theorem matchGroup_sound (cs g : List Char) (h : matchGroup cs = some g) :
    ∃ w t, cs = w ++ (g ++ t) ∧ WSL w ∧ GRP g ∧ matchTail t = true := by
  unfold matchGroup at h
  obtain ⟨r, hr, hgr⟩ := findSome?_sound _ _ _ h
  obtain ⟨w, hcs, hw⟩ := runSplits_sound isPySpace cs r hr
  obtain ⟨g2, t, hrgt, hg2, hgrp, ht⟩ := groupAux_sound r [] g hgr
  rw [List.nil_append] at hg2
  subst hg2
  exact ⟨w, t, by rw [hcs, hrgt], hw, hgrp, ht⟩

theorem matchGroup_complete (w g t : List Char) (hw : WSL w) (hg : GRP g)
    (ht : matchTail t = true) :
    (matchGroup (w ++ (g ++ t))).isSome = true := by
  unfold matchGroup
  exact findSome?_isSome _ _ (g ++ t) (runSplits_complete isPySpace w (g ++ t) hw)
    (groupAux_complete g t [] hg ht)

theorem matchAt_sound (cs g : List Char) (h : matchAt cs = some g) : AtPatG cs g := by
  unfold matchAt at h
  cases hm0 : matchLitCI "received $".data cs with
  | none => rw [hm0] at h; cases h
  | some r0 =>
    rw [hm0] at h
    obtain ⟨l0, hcs, hl0⟩ := matchLitCI_sound _ cs r0 hm0
    obtain ⟨r1, hr1mem, h1⟩ := findSome?_sound _ _ _ h
    obtain ⟨dd, hr0, hdd⟩ := runSplits_sound isDigitDot r0 r1 hr1mem
    obtain ⟨r2, hr2mem, h2⟩ := findSome?_sound _ _ _ h1
    obtain ⟨w1, hr1, hw1⟩ := runSplits_sound isPySpace r1 r2 hr2mem
    cases hmf : matchLitCI "from".data r2 with
    | none => rw [hmf] at h2; cases h2
    | some r3 =>
      rw [hmf] at h2
      obtain ⟨l1, hr2, hl1⟩ := matchLitCI_sound _ r2 r3 hmf
      obtain ⟨w2, t, hr3, hw2, hgrp, ht⟩ := matchGroup_sound r3 g h2
      exact ⟨l0, dd, w1, l1, w2, t,
        by rw [hcs, hr0, hr1, hr2, hr3], hl0, hdd, hw1, hl1, hw2, hgrp,
        (matchTail_iff t).mp ht⟩

theorem matchAt_complete (cs g : List Char) (h : AtPatG cs g) :
    (matchAt cs).isSome = true := by
  obtain ⟨l0, dd, w1, l1, w2, t, hcs, hl0, hdd, hw1, hl1, hw2, hgrp, ht⟩ := h
  rw [hcs]
  unfold matchAt
  rw [matchLitCI_complete _ l0 hl0 (dd ++ (w1 ++ (l1 ++ (w2 ++ (g ++ t)))))]
  refine findSome?_isSome _ _ (w1 ++ (l1 ++ (w2 ++ (g ++ t))))
    (runSplits_complete isDigitDot dd _ hdd) ?_
  refine findSome?_isSome _ _ (l1 ++ (w2 ++ (g ++ t)))
    (runSplits_complete isPySpace w1 _ hw1) ?_
  show (match matchLitCI "from".data (l1 ++ (w2 ++ (g ++ t))) with
    | none => none
    | some r3 => matchGroup r3).isSome = true
  rw [matchLitCI_complete _ l1 hl1 (w2 ++ (g ++ t))]
  exact matchGroup_complete w2 g t hw2 hgrp ((matchTail_iff t).mpr ht)

theorem reSearchParent_sound :
    ∀ (cs g : List Char), reSearchParent cs = some g →
      ∃ pre rest, cs = pre ++ rest ∧ matchAt rest = some g := by
  intro cs
  induction cs with
  | nil => intro g h; cases h
  | cons c cs2 ih =>
    intro g h
    unfold reSearchParent at h
    cases hm : matchAt (c :: cs2) with
    | some g2 =>
      simp only [hm] at h
      exact ⟨[], c :: cs2, rfl, by rw [hm]; exact h⟩
    | none =>
      simp only [hm] at h
      obtain ⟨pre2, rest, hsplit, hat⟩ := ih g h
      exact ⟨c :: pre2, rest, by rw [hsplit]; rfl, hat⟩

theorem reSearchParent_complete :
    ∀ (pre rest : List Char), (matchAt rest).isSome = true →
      (reSearchParent (pre ++ rest)).isSome = true := by
  intro pre
  induction pre with
  | nil =>
    intro rest h
    rw [List.nil_append]
    cases rest with
    | nil => exact absurd h (by decide)
    | cons c cs2 =>
      unfold reSearchParent
      cases hm : matchAt (c :: cs2) with
      | some g => rfl
      | none => rw [hm] at h; cases h
  | cons c pre2 ih =>
    intro rest h
    show (reSearchParent (c :: (pre2 ++ rest))).isSome = true
    unfold reSearchParent
    cases hm : matchAt (c :: (pre2 ++ rest)) with
    | some g => rfl
    | none => exact ih rest h

/-- C4 counterexample: the subject contains text between the tokens `from`
and `and it has been` but lacks the leading `received $<amount>`, and the
extraction returns null — the claim's pattern occurs yet the result is not
the between-tokens text. -/
theorem parse_parent_name_cex :
    _parse_parent_name cexSubject4 = none ∧ BetweenTokens cexSubject4.data := by
  refine ⟨by decide, "Sent ".data, "from".data, " Jane ".data, "and it has been".data,
    " deposited".data, by decide, rfl, rfl⟩

/-- C4 (amended): payer-name extraction matches the fuller pattern
`received $<digits-and-dots> from <name> and it has been` case-insensitively:
it succeeds exactly when that fuller pattern (including the leading
`received $<amount>`) occurs in the subject, and any returned name is the
whitespace-stripped lazy group standing between `from` and
`and it has been` inside such an occurrence. -/
theorem parse_parent_name_spec :
    ∀ subject : String,
      ((_parse_parent_name subject).isSome = true ↔ FullPat subject.data)
      ∧ (∀ nm, _parse_parent_name subject = some nm →
          ∃ pre rest g, subject.data = pre ++ rest ∧ AtPatG rest g
            ∧ nm = String.mk (pyStrip g)) := by
  intro subject
  constructor
  · constructor
    · intro h
      unfold _parse_parent_name at h
      cases hr : reSearchParent subject.data with
      | none => rw [hr] at h; cases h
      | some g =>
        obtain ⟨pre, rest, hsplit, hat⟩ := reSearchParent_sound subject.data g hr
        exact ⟨pre, rest, hsplit, g, matchAt_sound rest g hat⟩
    · intro h
      obtain ⟨pre, rest, hsplit, g, hat⟩ := h
      unfold _parse_parent_name
      rw [hsplit]
      cases hr : reSearchParent (pre ++ rest) with
      | some g2 => rfl
      | none =>
        have hs := reSearchParent_complete pre rest (matchAt_complete rest g hat)
        rw [hr] at hs
        cases hs
  · intro nm h
    unfold _parse_parent_name at h
    cases hr : reSearchParent subject.data with
    | none => rw [hr] at h; cases h
    | some g =>
      rw [hr] at h
      obtain ⟨pre, rest, hsplit, hat⟩ := reSearchParent_sound subject.data g hr
      exact ⟨pre, rest, g, hsplit, matchAt_sound rest g hat,
        by rw [← Option.some_inj, ← h]; rfl⟩

/-- Witness for `parse_parent_name_spec` on the end-to-end scenario subject:
the extraction succeeds with the stripped group Jane Doe. -/
theorem parse_parent_name_spec_witness :
    (_parse_parent_name
        "You have received $200.00 from Jane Doe and it has been automatically deposited"
      = some "Jane Doe")
    ∧ ∃ pre rest g,
        ("You have received $200.00 from Jane Doe and it has been automatically deposited").data
          = pre ++ rest
        ∧ AtPatG rest g ∧ "Jane Doe" = String.mk (pyStrip g) :=
  ⟨by decide,
   (parse_parent_name_spec
       "You have received $200.00 from Jane Doe and it has been automatically deposited").2
     "Jane Doe" (by decide)⟩
